import Mathlib

/-!
Shallow embedding of the findings-processing and spatial-overlay pipeline of
the compliance-report application (source files:
src/components/ComplianceReport.tsx, src/services/geminiService.ts,
src/types.ts), together with theorems checking the specification's claims
about the code.

Conventions of the embedding:
* the JS runtime values become pure Lean values; numeric bounding-box
  coordinates become rationals;
* JS `Array.prototype.sort`, which is a stable sort, is embedded as
  `List.insertionSort` (stable) over the relation "comparator result ≤ 0";
* a JS `Set<string>` becomes a `Finset String`;
* `undefined`-able fields become `Option`;
* the asynchronous provider call of `analyzeDrawingImage` is embedded by
  passing the provider's outcome (parsed payload, or failure) explicitly as an
  `Option`, and the wall clock as an explicit `scanDate` argument.
-/

/-- Compliance status of a finding (src/types.ts, `enum ComplianceStatus`). -/
inductive ComplianceStatus where
  | PASS
  | FAIL
  | WARNING
  | NEEDS_CLARIFICATION
deriving DecidableEq

/-- One compliance finding (src/types.ts, `interface ComplianceFinding`).
The bounding box is the 4-tuple `(ymin, xmin, ymax, xmax)` in source order. -/
structure Finding where
  id : String
  category : String
  description : String
  reference : String
  status : ComplianceStatus
  recommendation : String
  location : Option String
  boundingBox : Option (ℚ × ℚ × ℚ × ℚ)
deriving DecidableEq

/-- Analysis report (src/types.ts, `interface AnalysisReport`). -/
structure AnalysisReport where
  overallScore : ℚ
  scanDate : String
  fileName : String
  findings : List Finding
  summary : String
  imageBase64 : Option String
deriving DecidableEq

/-- Character-by-character lower-casing, embedding the uses of
`String.prototype.toLowerCase` (the data relevant to the claims is ASCII). -/
def lowerStr (s : String) : String :=
  String.mk (s.toList.map Char.toLower)

/-- `charsHavePre needle hay` is true when `needle` occurs at the front of
`hay`. -/
def charsHavePre : List Char → List Char → Bool
  | [], _ => true
  | _ :: _, [] => false
  | c :: cs, d :: ds => c = d && charsHavePre cs ds

/-- `charsContain hay needle` is true when `needle` occurs contiguously
somewhere in `hay`. -/
def charsContain (hay needle : List Char) : Bool :=
  match hay with
  | [] => needle.isEmpty
  | _ :: tl => charsHavePre needle hay || charsContain tl needle

/-- Embedding of `hay.includes(needle)` on strings
(`String.prototype.includes`, substring containment). -/
def strIncludes (hay needle : String) : Bool :=
  charsContain hay.toList needle.toList

/-- Whitespace recognized by the embedding of `String.prototype.trim`
(the characters relevant to the claims). -/
def jsWhitespace (c : Char) : Bool :=
  c = ' ' || c = '\t' || c = '\n' || c = '\r'

/-- Embedding of `String.prototype.trim`: strip whitespace from both ends. -/
def trimStr (s : String) : String :=
  String.mk (((s.toList.dropWhile jsWhitespace).reverse.dropWhile jsWhitespace).reverse)

/-- Code-unit-wise lexicographic comparison of character lists, embedding the
default string comparison of JS (`Array.prototype.sort` without a comparator
compares strings by code units). -/
def charListLE : List Char → List Char → Bool
  | [], _ => true
  | _ :: _, [] => false
  | c :: cs, d :: ds =>
    if c.toNat < d.toNat then true
    else if d.toNat < c.toNat then false
    else charListLE cs ds

/-- Lexicographic string order used to embed the category-name sorts and
`localeCompare`. -/
def strLE (a b : String) : Bool :=
  charListLE a.toList b.toList

/-- `strLE` as a relation for sorting. -/
def strLEP (a b : String) : Prop :=
  strLE a b = true

instance : DecidableRel strLEP :=
  fun a b => inferInstanceAs (Decidable (strLE a b = true))

/-- The category-defaulting idiom `f.category || 'General'` of the source
(`''` is falsy in JS). -/
def defaultCat (category : String) : String :=
  if category = "" then "General" else category

/-- Severity rank used by the SEVERITY comparator
(ComplianceReport.tsx, `severityOrder`, lines 164-169). -/
def severityOrder : ComplianceStatus → ℕ
  | .FAIL => 0
  | .WARNING => 1
  | .NEEDS_CLARIFICATION => 2
  | .PASS => 3

/-- The SEVERITY comparator `severityOrder[a.status] - severityOrder[b.status]`
viewed as the relation "comparator ≤ 0". -/
def sevLE (a b : Finding) : Prop :=
  severityOrder a.status ≤ severityOrder b.status

instance : DecidableRel sevLE := fun _ _ => Nat.decLe _ _

instance : IsTotal Finding sevLE :=
  ⟨fun a b => Nat.le_total (severityOrder a.status) (severityOrder b.status)⟩

instance : IsTrans Finding sevLE :=
  ⟨fun _ _ _ h h2 => Nat.le_trans h h2⟩

/-- The REFERENCE comparator `a.reference.localeCompare(b.reference)` viewed as
the relation "comparator ≤ 0"; `localeCompare` is embedded as the
lexicographic order on strings. -/
def refLE (a b : Finding) : Prop :=
  strLEP a.reference b.reference

instance : DecidableRel refLE :=
  fun a b => inferInstanceAs (Decidable (strLE a.reference b.reference = true))

/-- Any sort key other than REFERENCE and SEVERITY makes the comparator return
0 for every pair (ComplianceReport.tsx line 172), i.e. every pair compares as
equal. -/
def anyLE (_ _ : Finding) : Prop := True

instance : DecidableRel anyLE := fun _ _ => isTrue trivial

/-- Sort keys (ComplianceReport.tsx, `type SortOption`, line 20). -/
inductive SortOption where
  | SEVERITY
  | REFERENCE
  | CATEGORY
deriving DecidableEq

/-- The sort stage of `processedFindings` (ComplianceReport.tsx, lines
159-173): `[...result].sort(comparator)`. JS `Array.prototype.sort` is
guaranteed stable, so it is embedded as an insertion sort over the relation
"comparator result ≤ 0". -/
def sortFindings (sortBy : SortOption) (l : List Finding) : List Finding :=
  match sortBy with
  | .REFERENCE => l.insertionSort refLE
  | .SEVERITY => l.insertionSort sevLE
  | .CATEGORY => l.insertionSort anyLE

/-- Status-filter stage of `processedFindings` (ComplianceReport.tsx, lines
144-147); `none` plays the role of the `'ALL'` sentinel. -/
def filterByStatus (filterStatus : Option ComplianceStatus)
    (l : List Finding) : List Finding :=
  match filterStatus with
  | none => l
  | some st => l.filter (fun f => decide (f.status = st))

/-- The list-view search predicate (ComplianceReport.tsx, lines 152-156):
description, reference or raw category contains the lower-cased term. -/
def listSearchMatch (lowerSearch : String) (f : Finding) : Bool :=
  strIncludes (lowerStr f.description) lowerSearch ||
  strIncludes (lowerStr f.reference) lowerSearch ||
  strIncludes (lowerStr f.category) lowerSearch

/-- Search-filter stage of `processedFindings` (ComplianceReport.tsx, lines
149-157): a no-op when the trimmed search text is empty, otherwise a filter by
`listSearchMatch` against the lower-cased (untrimmed) search text. -/
def filterBySearch (searchText : String) (l : List Finding) : List Finding :=
  if trimStr searchText = "" then l
  else l.filter (listSearchMatch (lowerStr searchText))

/-- `processedFindings` (ComplianceReport.tsx, lines 141-176):
filter by status, then by search text, then sort. -/
def processedFindings (findings : List Finding)
    (filterStatus : Option ComplianceStatus) (searchText : String)
    (sortBy : SortOption) : List Finding :=
  sortFindings sortBy (filterBySearch searchText (filterByStatus filterStatus findings))

/-- The drawing-local search predicate (ComplianceReport.tsx, lines 186-188).
Note the guard `f.category && ...`: an empty category never matches. -/
def drawingSearchMatch (term : String) (f : Finding) : Bool :=
  strIncludes (lowerStr f.description) term ||
  strIncludes (lowerStr f.reference) term ||
  (decide (f.category ≠ "") && strIncludes (lowerStr f.category) term)

/-- The per-finding predicate of `visibleDrawingFindings`
(ComplianceReport.tsx, lines 180-191): reject when there is no bounding box,
reject when the (defaulted) category is hidden, and otherwise require a match
when a trimmed drawing search term is present. The contents of a present
bounding box are not inspected. -/
def overlayPred (hiddenLayers : Finset String) (drawingSearch : String)
    (f : Finding) : Bool :=
  match f.boundingBox with
  | none => false
  | some _ =>
    if defaultCat f.category ∈ hiddenLayers then false
    else if trimStr drawingSearch = "" then true
    else drawingSearchMatch (lowerStr drawingSearch) f

/-- `visibleDrawingFindings` (ComplianceReport.tsx, lines 179-192), as a
function of the processed findings, the hidden-layer set and the drawing
search text. -/
def visibleDrawingFindings (processed : List Finding)
    (hiddenLayers : Finset String) (drawingSearch : String) : List Finding :=
  processed.filter (overlayPred hiddenLayers drawingSearch)

/-- `toggleLayer` (ComplianceReport.tsx, lines 105-112): flip membership of
the given category string in the hidden-layer set. -/
def toggleLayer (category : String) (hiddenLayers : Finset String) :
    Finset String :=
  if category ∈ hiddenLayers then hiddenLayers.erase category
  else insert category hiddenLayers

/-- Deduplication keeping first occurrences, embedding
`Array.from(new Set(...))` (JS `Set` iterates in insertion order); `seen`
accumulates the elements already emitted. -/
def firstDedupAux (seen : List String) : List String → List String
  | [] => []
  | x :: xs =>
    if x ∈ seen then firstDedupAux seen xs
    else x :: firstDedupAux (x :: seen) xs

/-- Deduplication keeping first occurrences. -/
def firstDedup (l : List String) : List String :=
  firstDedupAux [] l

/-- `allCategories` (ComplianceReport.tsx, lines 71-73):
`Array.from(new Set(findings.map(f => f.category || 'General'))).sort()`. -/
def allCategories (findings : List Finding) : List String :=
  (firstDedup (findings.map (fun f => defaultCat f.category))).insertionSort strLEP

/-- One step of the grouping fold (ComplianceReport.tsx, lines 197-201): push
the finding onto the bucket of its category, creating the bucket at the end of
the record when absent (JS records iterate string keys in insertion order). -/
def addToGroups (groups : List (String × List Finding)) (cat : String)
    (f : Finding) : List (String × List Finding) :=
  match groups with
  | [] => [(cat, [f])]
  | (c, fs) :: rest =>
    if c = cat then (c, fs ++ [f]) :: rest
    else (c, fs) :: addToGroups rest cat f

/-- `groupedFindings` (ComplianceReport.tsx, lines 195-203): fold the
processed findings into category buckets, defaulting an empty category to
"General". -/
def groupedFindings (processed : List Finding) :
    List (String × List Finding) :=
  processed.foldl (fun groups f => addToGroups groups (defaultCat f.category) f) []

/-- Lookup of one bucket in the grouping record; `[]` when the key is
absent. -/
def bucketOf (groups : List (String × List Finding)) (cat : String) :
    List Finding :=
  match groups with
  | [] => []
  | (c, fs) :: rest => if c = cat then fs else bucketOf rest cat

/-- Key list of the grouping record, in insertion order
(JS `Object.keys`). -/
def keysOf (groups : List (String × List Finding)) : List String :=
  groups.map Prod.fst

/-- Concatenation of all bucket member lists. -/
def flattenGroups (groups : List (String × List Finding)) : List Finding :=
  (groups.map Prod.snd).flatten

/-- `categories` (ComplianceReport.tsx, line 205):
`Object.keys(groupedFindings).sort()`. -/
def categories (processed : List Finding) : List String :=
  (keysOf (groupedFindings processed)).insertionSort strLEP

/-- The percentage-based overlay rectangle computed for one bounding box
(ComplianceReport.tsx, lines 547-551). -/
structure OverlayRect where
  x : ℚ
  y : ℚ
  width : ℚ
  height : ℚ
deriving DecidableEq

/-- Overlay-rectangle geometry (ComplianceReport.tsx, lines 547-551):
`x = xmin*100`, `y = ymin*100`, `width = (xmax-xmin)*100`,
`height = (ymax-ymin)*100`, in percent of the image. -/
def overlayRect (box : ℚ × ℚ × ℚ × ℚ) : OverlayRect :=
  let (ymin, xmin, ymax, xmax) := box
  { x := xmin * 100
    y := ymin * 100
    width := (xmax - xmin) * 100
    height := (ymax - ymin) * 100 }

/-- Which side of the anchor the annotation box is rendered on. -/
inductive TooltipSide where
  | below
  | above
deriving DecidableEq

/-- Anchor position and side of the tooltip for a finding's bounding box. -/
structure TooltipPos where
  top : ℚ
  left : ℚ
  side : TooltipSide
deriving DecidableEq

/-- Tooltip placement (ComplianceReport.tsx, lines 602-614): anchor at
`top = ymin*100` percent, `left = xmin*100` percent; when `ymin*100 < 15` the
annotation is translated below the anchor, otherwise above it. -/
def tooltipFor (box : ℚ × ℚ × ℚ × ℚ) : TooltipPos :=
  let (ymin, xmin, _, _) := box
  let topVal := ymin * 100
  let leftVal := xmin * 100
  { top := topVal
    left := leftVal
    side := if topVal < 15 then TooltipSide.below else TooltipSide.above }

/-- The payload parsed from a successful provider response
(geminiService.ts, `responseSchema`, lines 40-68). -/
structure ProviderData where
  overallScore : ℚ
  summary : String
  findings : List Finding
deriving DecidableEq

/-- The synthetic finding of the degraded-mode report
(geminiService.ts, lines 112-122). -/
def fallbackFinding : Finding :=
  { id := "err-1"
    category := "System"
    description := "Could not complete AI analysis."
    reference := "N/A"
    status := ComplianceStatus.FAIL
    recommendation := "Try uploading a clearer image or check connection."
    location := none
    boundingBox := some (1/10, 1/10, 9/10, 9/10) }

/-- `analyzeDrawingImage` (geminiService.ts, lines 35-125). The provider call
is embedded by its outcome: `some data` when the call returned parseable data,
`none` when it threw, rejected, returned no text, or the text failed to parse
(all of which land in the `catch` block). The function is total: a failure is
converted into the degraded-mode report and never propagated. -/
def analyzeDrawingImage (providerResult : Option ProviderData)
    (base64Image fileName scanDate : String) : AnalysisReport :=
  match providerResult with
  | some data =>
    { overallScore := data.overallScore
      summary := data.summary
      findings := data.findings
      scanDate := scanDate
      fileName := fileName
      imageBase64 := some base64Image }
  | none =>
    { overallScore := 0
      summary := "Error processing analysis. Please ensure valid API Key and image format."
      scanDate := scanDate
      fileName := fileName
      imageBase64 := some base64Image
      findings := [fallbackFinding] }

/-! ## Shared helper lemmas -/

/-- Test value: a FAIL finding in category Fire with the §8 scenario box. -/
def demoFail : Finding :=
  { id := "A1"
    category := "Fire"
    description := "Exit width below minimum"
    reference := "SBC 801 - 5.2"
    status := ComplianceStatus.FAIL
    recommendation := "Widen the exit"
    location := none
    boundingBox := some (1/10, 2/10, 3/10, 6/10) }

/-- Test value: a WARNING finding in category Fire without a bounding box. -/
def demoWarn : Finding :=
  { id := "A2"
    category := "Fire"
    description := "Corridor close to limit"
    reference := "SBC 201 - 10.4"
    status := ComplianceStatus.WARNING
    recommendation := "Review corridor"
    location := none
    boundingBox := none }

/-- Test value: a PASS finding with an empty category. -/
def demoEmptyCat : Finding :=
  { id := "B1"
    category := ""
    description := "Door width acceptable"
    reference := "SBC 201 - 10.1"
    status := ComplianceStatus.PASS
    recommendation := "None"
    location := none
    boundingBox := some (1/2, 1/2, 3/4, 3/4) }

/-- Test value: a finding whose bounding box violates the ordering invariant
(ymin = 9/10 is not below ymax = 1/10, likewise for x). -/
def invalidBoxFinding : Finding :=
  { id := "X1"
    category := "Fire"
    description := "Mirrored box"
    reference := "SBC 801 - 1.1"
    status := ComplianceStatus.FAIL
    recommendation := "None"
    location := none
    boundingBox := some (9/10, 9/10, 1/10, 1/10) }

theorem charListLE_total : ∀ a b, charListLE a b = true ∨ charListLE b a = true
  | [], _ => Or.inl rfl
  | _ :: _, [] => Or.inr rfl
  | c :: cs, d :: ds => by
    by_cases h1 : c.toNat < d.toNat
    · left; simp [charListLE, h1]
    · by_cases h2 : d.toNat < c.toNat
      · right; simp [charListLE, h2]
      · cases charListLE_total cs ds with
        | inl h => left; simp [charListLE, h1, h2, h]
        | inr h => right; simp [charListLE, h1, h2, h]

theorem charListLE_trans :
    ∀ a b c, charListLE a b = true → charListLE b c = true → charListLE a c = true
  | [], _, _, _, _ => rfl
  | _ :: _, [], _, h1, _ => by simp [charListLE] at h1
  | _ :: _, _ :: _, [], _, h2 => by simp [charListLE] at h2
  | x :: xs, y :: ys, z :: zs, h1, h2 => by
    simp only [charListLE] at h1 h2 ⊢
    rcases Nat.lt_trichotomy x.toNat y.toNat with hxy | hxy | hxy
    · rcases Nat.lt_trichotomy y.toNat z.toNat with hyz | hyz | hyz
      · simp [show x.toNat < z.toNat by omega]
      · simp [show x.toNat < z.toNat by omega]
      · rw [if_neg (by omega), if_pos (by omega)] at h2
        exact absurd h2 (by simp)
    · rcases Nat.lt_trichotomy y.toNat z.toNat with hyz | hyz | hyz
      · simp [show x.toNat < z.toNat by omega]
      · rw [if_neg (by omega), if_neg (by omega)] at h1 h2 ⊢
        exact charListLE_trans xs ys zs h1 h2
      · rw [if_neg (by omega), if_pos (by omega)] at h2
        exact absurd h2 (by simp)
    · rw [if_neg (by omega), if_pos (by omega)] at h1
      exact absurd h1 (by simp)

instance : IsTotal String strLEP :=
  ⟨fun a b => charListLE_total a.toList b.toList⟩

instance : IsTrans String strLEP :=
  ⟨fun a b c h1 h2 => charListLE_trans a.toList b.toList c.toList h1 h2⟩

/-- Inserting an element rejected by `p` does not change the `p`-filtered
contents. -/
theorem filter_orderedInsert_neg {α : Type} (r : α → α → Prop) [DecidableRel r]
    (p : α → Bool) (a : α) (ha : p a = false) :
    ∀ l : List α, (l.orderedInsert r a).filter p = l.filter p := by
  intro l
  induction l with
  | nil => simp [List.orderedInsert, ha]
  | cons b l ih =>
    rw [List.orderedInsert]
    by_cases hr : r a b
    · simp [hr, List.filter_cons, ha]
    · rw [if_neg hr]
      by_cases hb : p b = true
      · simp [List.filter_cons, hb, ih]
      · have hb2 : p b = false := by simpa using hb
        simp [List.filter_cons, hb2, ih]

/-- Inserting an element accepted by `p` that is `r`-below every `p`-accepted
element puts it at the head of the `p`-filtered contents (the stability core of
the insertion sort). -/
theorem filter_orderedInsert_pos {α : Type} (r : α → α → Prop) [DecidableRel r]
    (p : α → Bool) (a : α) (ha : p a = true)
    (hp : ∀ b, p b = true → r a b) :
    ∀ l : List α, (l.orderedInsert r a).filter p = a :: l.filter p := by
  intro l
  induction l with
  | nil => simp [List.orderedInsert, ha]
  | cons b l ih =>
    rw [List.orderedInsert]
    by_cases hr : r a b
    · simp [hr, List.filter_cons, ha]
    · rw [if_neg hr]
      have hb : p b = false := by
        by_contra hb
        exact hr (hp b (by simpa using hb))
      simp [List.filter_cons, hb, ih]

/-- Stability of the insertion sort with respect to any predicate whose
accepted elements are pairwise `r`-related both ways: the filtered subsequence
is unchanged by sorting. -/
theorem filter_insertionSort {α : Type} (r : α → α → Prop) [DecidableRel r]
    (p : α → Bool) (hcompat : ∀ a b, p a = true → p b = true → r a b) :
    ∀ l : List α, (l.insertionSort r).filter p = l.filter p := by
  intro l
  induction l with
  | nil => rfl
  | cons a l ih =>
    rw [List.insertionSort]
    by_cases ha : p a = true
    · rw [filter_orderedInsert_pos r p a ha (fun b hb => hcompat a b ha hb), ih]
      simp [List.filter_cons, ha]
    · have ha2 : p a = false := by simpa using ha
      rw [filter_orderedInsert_neg r p a ha2, ih]
      simp [List.filter_cons, ha2]

/-- Membership in the first-occurrence deduplication. -/
theorem mem_firstDedupAux :
    ∀ (l : List String) (seen : List String) (x : String),
      x ∈ firstDedupAux seen l ↔ x ∈ l ∧ x ∉ seen
  | [], seen, x => by simp [firstDedupAux]
  | y :: ys, seen, x => by
    rw [firstDedupAux]
    by_cases hy : y ∈ seen
    · rw [if_pos hy, mem_firstDedupAux ys seen x]
      constructor
      · rintro ⟨h1, h2⟩
        exact ⟨List.mem_cons_of_mem y h1, h2⟩
      · rintro ⟨h1, h2⟩
        rcases List.mem_cons.1 h1 with h | h
        · subst h; exact absurd hy h2
        · exact ⟨h, h2⟩
    · rw [if_neg hy, List.mem_cons, mem_firstDedupAux ys (y :: seen) x]
      constructor
      · rintro (h | ⟨h1, h2⟩)
        · subst h; exact ⟨List.mem_cons_self x ys, hy⟩
        · refine ⟨List.mem_cons_of_mem y h1, fun hx => h2 (List.mem_cons_of_mem y hx)⟩
      · rintro ⟨h1, h2⟩
        rcases List.mem_cons.1 h1 with h | h
        · exact Or.inl h
        · by_cases hxy : x = y
          · exact Or.inl hxy
          · exact Or.inr ⟨h, fun hx => by
              rcases List.mem_cons.1 hx with h3 | h3
              · exact hxy h3
              · exact h2 h3⟩

/-- Membership in `firstDedup` agrees with membership in the input. -/
theorem mem_firstDedup (l : List String) (x : String) :
    x ∈ firstDedup l ↔ x ∈ l := by
  rw [firstDedup, mem_firstDedupAux]
  simp

/-- A category name appears in `allCategories` exactly when some finding has
it as its defaulted category. -/
theorem mem_allCategories (findings : List Finding) (c : String) :
    c ∈ allCategories findings ↔ ∃ f ∈ findings, defaultCat f.category = c := by
  rw [allCategories, List.mem_insertionSort, mem_firstDedup, List.mem_map]

/-- Effect of one grouping step on one bucket. -/
theorem bucketOf_addToGroups :
    ∀ (g : List (String × List Finding)) (cat : String) (f : Finding) (c : String),
      bucketOf (addToGroups g cat f) c =
        bucketOf g c ++ (if cat = c then [f] else [])
  | [], cat, f, c => by
    by_cases h : cat = c <;> simp [addToGroups, bucketOf, h]
  | (c0, fs) :: rest, cat, f, c => by
    by_cases h0 : c0 = cat
    · subst h0
      rw [addToGroups, if_pos rfl]
      by_cases hc : c0 = c
      · rw [bucketOf, if_pos hc, bucketOf, if_pos hc, if_pos hc]
      · rw [bucketOf, if_neg hc, bucketOf, if_neg hc, if_neg hc, List.append_nil]
    · rw [addToGroups, if_neg h0]
      by_cases hc : c0 = c
      · subst hc
        rw [bucketOf, if_pos rfl, bucketOf, if_pos rfl,
          if_neg (fun h => h0 h.symm), List.append_nil]
      · rw [bucketOf, if_neg hc, bucketOf, if_neg hc,
          bucketOf_addToGroups rest cat f c]

/-- Invariant of the grouping fold on one bucket. -/
theorem bucketOf_foldl :
    ∀ (l : List Finding) (g : List (String × List Finding)) (c : String),
      bucketOf (l.foldl (fun groups f => addToGroups groups (defaultCat f.category) f) g) c =
        bucketOf g c ++ l.filter (fun f => decide (defaultCat f.category = c))
  | [], g, c => by simp
  | f :: l, g, c => by
    rw [List.foldl_cons, bucketOf_foldl l _ c, bucketOf_addToGroups g _ f c,
      List.filter_cons, List.append_assoc]
    by_cases h : defaultCat f.category = c
    · simp [h]
    · simp [h]

/-- Each bucket of `groupedFindings` is exactly the input subsequence of the
findings with that defaulted category (hence intra-bucket order is input
order). -/
theorem bucketOf_groupedFindings (l : List Finding) (c : String) :
    bucketOf (groupedFindings l) c =
      l.filter (fun f => decide (defaultCat f.category = c)) := by
  rw [groupedFindings, bucketOf_foldl l [] c, bucketOf]
  rfl

/-- A member of a bucket has that bucket's category. -/
theorem mem_bucketOf_groupedFindings {l : List Finding} {c : String}
    {f : Finding} (h : f ∈ bucketOf (groupedFindings l) c) :
    f ∈ l ∧ defaultCat f.category = c := by
  rw [bucketOf_groupedFindings] at h
  have := List.mem_filter.1 h
  exact ⟨this.1, by simpa using this.2⟩

/-- One grouping step adds the new finding to the flattened contents, up to
permutation. -/
theorem flattenGroups_addToGroups :
    ∀ (g : List (String × List Finding)) (cat : String) (f : Finding),
      (flattenGroups (addToGroups g cat f)).Perm (f :: flattenGroups g)
  | [], cat, f => by simp [addToGroups, flattenGroups]
  | (c0, fs) :: rest, cat, f => by
    by_cases h0 : c0 = cat
    · rw [addToGroups, if_pos h0]
      show ((fs ++ [f]) ++ flattenGroups rest).Perm (f :: (fs ++ flattenGroups rest))
      rw [List.append_assoc, List.singleton_append]
      exact List.perm_middle
    · rw [addToGroups, if_neg h0]
      show (fs ++ flattenGroups (addToGroups rest cat f)).Perm
        (f :: (fs ++ flattenGroups rest))
      exact (List.Perm.append_left fs (flattenGroups_addToGroups rest cat f)).trans
        List.perm_middle

/-- Invariant of the grouping fold on the flattened contents. -/
theorem flattenGroups_foldl :
    ∀ (l : List Finding) (g : List (String × List Finding)),
      (flattenGroups
        (l.foldl (fun groups f => addToGroups groups (defaultCat f.category) f) g)).Perm
        (flattenGroups g ++ l)
  | [], g => by simp
  | f :: l, g => by
    rw [List.foldl_cons]
    refine ((flattenGroups_foldl l _).trans ?_)
    refine (List.Perm.append_right l (flattenGroups_addToGroups g _ f)).trans ?_
    rw [List.cons_append]
    exact List.perm_middle.symm

/-- The buckets of `groupedFindings` jointly contain exactly the input
findings (no loss, no duplication). -/
theorem flattenGroups_groupedFindings (l : List Finding) :
    (flattenGroups (groupedFindings l)).Perm l := by
  have h := flattenGroups_foldl l []
  simpa [flattenGroups] using h

/-- Effect of one grouping step on the key list. -/
theorem keysOf_addToGroups :
    ∀ (g : List (String × List Finding)) (cat : String) (f : Finding),
      keysOf (addToGroups g cat f) =
        if cat ∈ keysOf g then keysOf g else keysOf g ++ [cat]
  | [], cat, f => by simp [addToGroups, keysOf]
  | (c0, fs) :: rest, cat, f => by
    have ih := keysOf_addToGroups rest cat f
    simp only [keysOf] at ih ⊢
    rw [addToGroups]
    by_cases h0 : c0 = cat
    · subst h0
      rw [if_pos rfl]
      simp only [List.map_cons]
      rw [if_pos (List.mem_cons_self _ _)]
    · rw [if_neg h0]
      simp only [List.map_cons, List.mem_cons]
      rw [ih]
      by_cases hm : cat ∈ List.map Prod.fst rest
      · rw [if_pos hm, if_pos (Or.inr hm)]
      · rw [if_neg hm, if_neg (by
          rintro (h | h)
          · exact h0 h.symm
          · exact hm h)]
        simp

/-- The grouping fold keeps the key list duplicate-free. -/
theorem nodup_keysOf_foldl :
    ∀ (l : List Finding) (g : List (String × List Finding)),
      (keysOf g).Nodup →
      (keysOf (l.foldl (fun groups f => addToGroups groups (defaultCat f.category) f) g)).Nodup
  | [], g, hg => hg
  | f :: l, g, hg => by
    rw [List.foldl_cons]
    refine nodup_keysOf_foldl l _ ?_
    rw [keysOf_addToGroups g _ f]
    by_cases hm : defaultCat f.category ∈ keysOf g
    · rw [if_pos hm]; exact hg
    · rw [if_neg hm]
      simp [List.nodup_append, hg, hm]

/-- The buckets of `groupedFindings` have pairwise distinct category keys. -/
theorem nodup_keysOf_groupedFindings (l : List Finding) :
    (keysOf (groupedFindings l)).Nodup := by
  exact nodup_keysOf_foldl l [] (by simp [keysOf])

/-- `filterBySearch` yields a subsequence of its input. -/
theorem filterBySearch_sublist (t : String) (l : List Finding) :
    (filterBySearch t l).Sublist l := by
  rw [filterBySearch]
  split_ifs
  · exact List.Sublist.refl l
  · exact List.filter_sublist l

/-- `filterByStatus` yields a subsequence of its input. -/
theorem filterByStatus_sublist (fs : Option ComplianceStatus) (l : List Finding) :
    (filterByStatus fs l).Sublist l := by
  cases fs with
  | none => exact List.Sublist.refl l
  | some st => exact List.filter_sublist l

/-- Every processed finding comes from the report's finding list. -/
theorem mem_processedFindings {l : List Finding} {fs : Option ComplianceStatus}
    {t : String} {key : SortOption} {f : Finding}
    (h : f ∈ processedFindings l fs t key) : f ∈ l := by
  rw [processedFindings] at h
  have h1 : f ∈ filterBySearch t (filterByStatus fs l) := by
    cases key <;> simpa [sortFindings, List.mem_insertionSort] using h
  have h2 : f ∈ filterByStatus fs l :=
    (filterBySearch_sublist t _).mem h1
  exact (filterByStatus_sublist fs l).mem h2

/-! ## Claims -/

/-- C1, counterexample: the finding `invalidBoxFinding` has a bounding box
that violates the ordering invariant (`ymin = 9/10` is not less than
`ymax = 1/10`), yet with no hidden layers and no drawing search it is a member
of the visible overlay set, not excluded as the claim states. -/
theorem C1_counterexample :
    invalidBoxFinding.boundingBox = some (9/10, 9/10, 1/10, 1/10) ∧
    ¬ ((9 : ℚ)/10 < 1/10) ∧
    visibleDrawingFindings [invalidBoxFinding] ∅ "" = [invalidBoxFinding] :=
  ⟨rfl, by norm_num, rfl⟩

/-- C1, amended: the Spatial Overlay Mapper never inspects the contents of a
bounding box. Every finding of the processed sequence with a present bounding
box — valid or not — whose defaulted category is not hidden is in the visible
overlay set when no drawing search term is active; only a finding with an
absent box is treated as boxless. -/
theorem C1_overlay_ignores_box_validity
    (p : List Finding) (hidden : Finset String) (ds : String) (f : Finding)
    (b : ℚ × ℚ × ℚ × ℚ) (hb : f.boundingBox = some b)
    (hh : defaultCat f.category ∉ hidden) (hds : trimStr ds = "")
    (hf : f ∈ p) :
    f ∈ visibleDrawingFindings p hidden ds := by
  rw [visibleDrawingFindings]
  refine List.mem_filter.2 ⟨hf, ?_⟩
  simp [overlayPred, hb, hh, hds]

/-- C1, witness: the amended theorem applied to the invalid-box finding. -/
theorem C1_witness :
    invalidBoxFinding ∈ visibleDrawingFindings [invalidBoxFinding] ∅ "" :=
  C1_overlay_ignores_box_validity [invalidBoxFinding] ∅ "" invalidBoxFinding
    (9/10, 9/10, 1/10, 1/10) rfl (by simp) rfl (by simp)

/-- C2, counterexample: "Zoning" is not a category of this report, yet
`toggleLayer "Zoning"` changes the hidden-layer set (it inserts the unknown
name), so the operation is not a no-op on the hidden set. -/
theorem C2_counterexample :
    ("Zoning" ∉ allCategories [demoFail, demoWarn, demoEmptyCat]) ∧
    toggleLayer "Zoning" ∅ ≠ (∅ : Finset String) :=
  ⟨by decide, by decide⟩

/-- C2, amended: `toggleLayer c` for a category `c` not in the report's
category list does change the hidden-layer set (it flips `c` in and out of
it), but it has no observable effect on the visible overlay set of the
current report, because no finding carries that category. -/
theorem C2_toggle_unknown_category (findings : List Finding)
    (fs : Option ComplianceStatus) (t : String) (key : SortOption)
    (hidden : Finset String) (ds c : String)
    (hc : c ∉ allCategories findings) :
    visibleDrawingFindings (processedFindings findings fs t key)
        (toggleLayer c hidden) ds =
      visibleDrawingFindings (processedFindings findings fs t key) hidden ds := by
  rw [visibleDrawingFindings, visibleDrawingFindings]
  apply List.filter_congr
  intro f hf
  have hfl : f ∈ findings := mem_processedFindings hf
  have hne : defaultCat f.category ≠ c := by
    intro h
    exact hc ((mem_allCategories findings c).2 ⟨f, hfl, h⟩)
  have hiff : defaultCat f.category ∈ toggleLayer c hidden ↔
      defaultCat f.category ∈ hidden := by
    rw [toggleLayer]
    by_cases hch : c ∈ hidden
    · rw [if_pos hch]
      simp [Finset.mem_erase, hne]
    · rw [if_neg hch]
      simp [Finset.mem_insert, hne]
  rcases hE : f.boundingBox with _ | b
  · simp [overlayPred, hE]
  · simp only [overlayPred, hE]
    by_cases hmem : defaultCat f.category ∈ hidden
    · rw [if_pos (hiff.2 hmem), if_pos hmem]
    · rw [if_neg (fun h => hmem (hiff.1 h)), if_neg hmem]

/-- C2, witness: the amended theorem applied to a concrete report and the
unknown category "Zoning". -/
theorem C2_witness :
    visibleDrawingFindings
        (processedFindings [demoFail, demoWarn, demoEmptyCat] none "" .SEVERITY)
        (toggleLayer "Zoning" ∅) "" =
      visibleDrawingFindings
        (processedFindings [demoFail, demoWarn, demoEmptyCat] none "" .SEVERITY)
        ∅ "" :=
  C2_toggle_unknown_category [demoFail, demoWarn, demoEmptyCat] none "" .SEVERITY
    ∅ "" "Zoning" (by decide)

/-- C3: sorting with key SEVERITY (i) orders the output so that severity ranks
are non-decreasing along it — hence every FAIL (rank 0) precedes every WARNING
(rank 1), every WARNING precedes every NEEDS_CLARIFICATION (rank 2), and every
NEEDS_CLARIFICATION precedes every PASS (rank 3); (ii) is stable — for each
status, the subsequence of findings with that status is exactly the input's
subsequence, so equal-status findings keep their relative input order; and
(iii) is a permutation of the input; the input list itself is untouched (the
embedding is pure, mirroring the copy `[...result]` made before sorting). -/
theorem C3_severity_sort (l : List Finding) :
    (sortFindings .SEVERITY l).Pairwise sevLE ∧
    (∀ s : ComplianceStatus,
      (sortFindings .SEVERITY l).filter (fun f => decide (f.status = s)) =
        l.filter (fun f => decide (f.status = s))) ∧
    (sortFindings .SEVERITY l).Perm l := by
  refine ⟨List.sorted_insertionSort sevLE l, ?_, List.perm_insertionSort sevLE l⟩
  intro s
  refine filter_insertionSort sevLE (fun f => decide (f.status = s)) ?_ l
  intro a b ha hb
  have ha2 : a.status = s := by simpa using ha
  have hb2 : b.status = s := by simpa using hb
  rw [sevLE, ha2, hb2]

/-- C4: grouping the filtered+sorted sequence partitions it exactly — each
bucket is the input subsequence of its category (so intra-bucket order is
input order), a bucket member's defaulted category is the bucket key (so each
finding is in exactly one bucket), the flattened buckets are a permutation of
the input (no loss, no duplication), bucket keys are pairwise distinct, and
the navigation list `categories` is the key set sorted alphabetically. -/
theorem C4_grouping (p : List Finding) :
    (∀ c, bucketOf (groupedFindings p) c =
        p.filter (fun f => decide (defaultCat f.category = c))) ∧
    (∀ c f, f ∈ bucketOf (groupedFindings p) c → defaultCat f.category = c) ∧
    (flattenGroups (groupedFindings p)).Perm p ∧
    (keysOf (groupedFindings p)).Nodup ∧
    (categories p).Pairwise strLEP ∧
    (∀ c, c ∈ categories p ↔ c ∈ keysOf (groupedFindings p)) := by
  refine ⟨bucketOf_groupedFindings p, ?_, flattenGroups_groupedFindings p,
    nodup_keysOf_groupedFindings p, ?_, ?_⟩
  · intro c f hf
    exact (mem_bucketOf_groupedFindings hf).2
  · exact List.sorted_insertionSort strLEP _
  · intro c
    exact List.mem_insertionSort strLEP

/-- C4, witness: the grouping theorem applied to a concrete two-element input,
exercising the bucket-membership implication on the empty-category finding. -/
theorem C4_witness :
    defaultCat demoEmptyCat.category = "General" :=
  (C4_grouping [demoEmptyCat]).2.1 "General" demoEmptyCat
    (show demoEmptyCat ∈ ([demoEmptyCat] : List Finding) from
      List.mem_singleton.2 rfl)

/-- C5: when the provider fails (no parseable data: the `catch` path),
`analyzeDrawingImage` returns a report with score 0 and exactly one finding —
status FAIL, category "System", bounding box (0.1, 0.1, 0.9, 0.9). The
function is total on the failure input, so the failure is never propagated. -/
theorem C5_provider_failure (base64Image fileName scanDate : String) :
    (analyzeDrawingImage none base64Image fileName scanDate).overallScore = 0 ∧
    (analyzeDrawingImage none base64Image fileName scanDate).findings =
      [fallbackFinding] ∧
    (analyzeDrawingImage none base64Image fileName scanDate).findings.length = 1 ∧
    fallbackFinding.status = ComplianceStatus.FAIL ∧
    fallbackFinding.category = "System" ∧
    fallbackFinding.boundingBox = some (1/10, 1/10, 9/10, 9/10) :=
  ⟨rfl, rfl, rfl, rfl, rfl, rfl⟩

/-- C6: for every overlay-visible finding whose bounding box is
(ymin, xmin, ymax, xmax), the rendered rectangle is left = xmin·100 percent,
top = ymin·100 percent, width = (xmax−xmin)·100 percent,
height = (ymax−ymin)·100 percent; in particular the box
(0.1, 0.2, 0.3, 0.6) maps to left 20, top 10, width 40, height 20 percent. -/
theorem C6_overlay_rect (p : List Finding) (hidden : Finset String)
    (ds : String) (f : Finding) (ymin xmin ymax xmax : ℚ)
    (_hf : f ∈ visibleDrawingFindings p hidden ds)
    (_hb : f.boundingBox = some (ymin, xmin, ymax, xmax)) :
    overlayRect (ymin, xmin, ymax, xmax) =
      { x := xmin * 100, y := ymin * 100,
        width := (xmax - xmin) * 100, height := (ymax - ymin) * 100 } ∧
    overlayRect (1/10, 2/10, 3/10, 6/10) = ⟨20, 10, 40, 20⟩ := by
  constructor
  · rfl
  · simp only [overlayRect, OverlayRect.mk.injEq]
    norm_num

/-- C6, witness: the geometry theorem applied to the demo finding, which is
overlay-visible with the scenario box of §8 of the spec. -/
theorem C6_witness :
    overlayRect (1/10, 2/10, 3/10, 6/10) = ⟨20, 10, 40, 20⟩ :=
  (C6_overlay_rect [demoFail] ∅ "" demoFail (1/10) (2/10) (3/10) (6/10)
    (show demoFail ∈ ([demoFail] : List Finding) from List.mem_singleton.2 rfl)
    rfl).2

/-- C7: the status filter and the search filter commute — applying status then
search equals applying search then status — and their composition is a
subsequence of the input, so the original relative order is preserved. -/
theorem C7_filters_commute (l : List Finding) (fs : Option ComplianceStatus)
    (t : String) :
    filterBySearch t (filterByStatus fs l) =
      filterByStatus fs (filterBySearch t l) ∧
    (filterBySearch t (filterByStatus fs l)).Sublist l := by
  constructor
  · cases fs with
    | none => rfl
    | some st =>
      rw [filterBySearch, filterBySearch]
      by_cases h : trimStr t = ""
      · rw [if_pos h, if_pos h]
      · rw [if_neg h, if_neg h]
        simp only [filterByStatus]
        exact List.filter_comm _ _ l
  · exact (filterBySearch_sublist t _).trans (filterByStatus_sublist fs l)

/-- C8: the tooltip of the active or hovered finding is anchored at
top = ymin·100 percent, left = xmin·100 percent of its box, rendered below the
anchor when ymin·100 < 15 and above it otherwise. -/
theorem C8_tooltip_placement (ymin xmin ymax xmax : ℚ) :
    (tooltipFor (ymin, xmin, ymax, xmax)).top = ymin * 100 ∧
    (tooltipFor (ymin, xmin, ymax, xmax)).left = xmin * 100 ∧
    (ymin * 100 < 15 →
      (tooltipFor (ymin, xmin, ymax, xmax)).side = TooltipSide.below) ∧
    (¬ ymin * 100 < 15 →
      (tooltipFor (ymin, xmin, ymax, xmax)).side = TooltipSide.above) := by
  refine ⟨rfl, rfl, ?_, ?_⟩
  · intro h
    simp [tooltipFor, h]
  · intro h
    simp [tooltipFor, h]

/-- C8, witness: a box starting in the top 15 percent gets its tooltip below,
one starting at mid-height gets it above. -/
theorem C8_witness :
    (tooltipFor (1/10, 2/10, 3/10, 6/10)).side = TooltipSide.below ∧
    (tooltipFor (1/2, 1/2, 3/4, 3/4)).side = TooltipSide.above :=
  ⟨(C8_tooltip_placement (1/10) (2/10) (3/10) (6/10)).2.2.1 (by norm_num),
   (C8_tooltip_placement (1/2) (1/2) (3/4) (3/4)).2.2.2 (by norm_num)⟩

/-- C9: the visible overlay set excludes every finding without a bounding box
and every finding whose defaulted category is hidden, regardless of the
drawing search term. -/
theorem C9_overlay_exclusions (p : List Finding) (hidden : Finset String)
    (ds : String) (f : Finding)
    (h : f.boundingBox = none ∨ defaultCat f.category ∈ hidden) :
    f ∉ visibleDrawingFindings p hidden ds := by
  intro hmem
  rw [visibleDrawingFindings] at hmem
  have h2 := (List.mem_filter.1 hmem).2
  rcases h with hb | hh
  · simp [overlayPred, hb] at h2
  · rcases hE : f.boundingBox with _ | b
    · simp [overlayPred, hE] at h2
    · simp [overlayPred, hE, hh] at h2

/-- C9, witness: the exclusion theorem applied to the boxless demo finding. -/
theorem C9_witness : demoWarn ∉ visibleDrawingFindings [demoWarn] ∅ "" :=
  C9_overlay_exclusions [demoWarn] ∅ "" demoWarn (Or.inl rfl)

/-- C10 (implicit): the list-view search compares the term against the raw
category string, without the empty-to-"General" default — for a finding with
empty category and any non-empty term, the category disjunct of the search
predicate is false, the whole predicate degenerates to the description and
reference disjuncts, and yet grouping places the finding in the "General"
bucket. -/
theorem C10_raw_category_search (f : Finding) (t : String) (l : List Finding)
    (hcat : f.category = "") (ht : t ≠ "") (hf : f ∈ l) :
    strIncludes (lowerStr f.category) (lowerStr t) = false ∧
    listSearchMatch (lowerStr t) f =
      (strIncludes (lowerStr f.description) (lowerStr t) ||
        strIncludes (lowerStr f.reference) (lowerStr t)) ∧
    f ∈ bucketOf (groupedFindings l) "General" := by
  have htl : t.toList ≠ [] := by
    intro hnil
    apply ht
    cases t with
    | mk data =>
      simp only [String.toList] at hnil
      rw [hnil]
  have hcat0 : strIncludes (lowerStr f.category) (lowerStr t) = false := by
    rw [hcat]
    show (t.toList.map Char.toLower).isEmpty = false
    cases hE : t.toList with
    | nil => exact absurd hE htl
    | cons c cs => rfl
  refine ⟨hcat0, ?_, ?_⟩
  · rw [listSearchMatch, hcat0, Bool.or_false]
  · rw [bucketOf_groupedFindings]
    exact List.mem_filter.2 ⟨hf, by simp [defaultCat, hcat]⟩

/-- C10, witness: the theorem applied to the empty-category demo finding and
the term "general". -/
theorem C10_witness :
    strIncludes (lowerStr demoEmptyCat.category) (lowerStr "general") = false ∧
    demoEmptyCat ∈ bucketOf (groupedFindings [demoEmptyCat]) "General" :=
  ⟨(C10_raw_category_search demoEmptyCat "general" [demoEmptyCat] rfl
      (by decide) (List.mem_singleton.2 rfl)).1,
   (C10_raw_category_search demoEmptyCat "general" [demoEmptyCat] rfl
      (by decide) (List.mem_singleton.2 rfl)).2.2⟩
